import Mathlib

/-!
Verification of the MiniAuction bidding and lifecycle engine.

The definitions below are a shallow embedding of the repository's core
logic:

* `update_auction_status` and `handle_new_bid` embed the PL/pgSQL
  functions of the same names from the latest migration
  (src/unnamed/part_002); that migration `CREATE OR REPLACE`s the earlier
  versions from src/unnamed/part_004, so part_002 is the authoritative
  text.
* `app_isUpcoming`/`app_isActive`/`app_isEnded` embed the inline phase
  flags of `App.filteredAuctions` (src/src/lib/supabase.ts concatenated
  App component, lines 204-210).
* `room_isUpcoming`/`room_isActive`/`room_isEnded` embed the identical
  inline flags of `AuctionRoom` (src/src/components/AuctionRoom.tsx,
  lines 154-160) and `AuctionCard` (src/src/components/AuctionCard.tsx,
  lines 16-22), which use the strict `isAfter`/`isBefore` comparisons of
  date-fns.
* `specPhaseOf` and `spec_validate` are modelled from the spec's words
  (spec.md sections 4.1 and 4.2); no single `phaseOf`/`validate` function
  exists in the source, only the inline computations above and the
  trigger.

Monetary columns are NUMERIC(10,2), exact two-digit decimals; they are
modelled as integer counts of cents. Timestamps are modelled as
integers; only their ordering is used.
-/

/-- User identifiers (uuid columns referencing profiles). -/
abbrev UserId := Nat

/-- Wall-clock timestamps (timestamptz columns); only ordering matters. -/
abbrev Time := Int

/-- Monetary amounts (NUMERIC(10,2) columns): exact decimals with two
fraction digits, modelled as integer counts of cents — an order- and
addition-preserving view that also preserves zero, which is all the
engine uses. -/
abbrev Money := Int

/-- The `auction_status` enum from the schema (src/unnamed/part_004). -/
inductive AuctionStatus where
  | draft
  | active
  | ended
  | cancelled
deriving DecidableEq, Repr

/-- The `notification_type` enum from the schema (src/unnamed/part_004). -/
inductive NotificationType where
  | new_bid
  | outbid
  | auction_ended
  | bid_accepted
  | bid_rejected
  | counter_offer
deriving DecidableEq, Repr

/-- A row of the `auctions` table (src/unnamed/part_004, lines 60-73).
`highest_bid` has DEFAULT 0 and is never written NULL, so it is modelled
as a plain value; `highest_bidder_id` is nullable. -/
structure Auction where
  seller_id : UserId
  title : String
  starting_price : Money
  bid_increment : Money
  start_time : Time
  end_time : Time
  status : AuctionStatus
  highest_bid : Money
  highest_bidder_id : Option UserId
deriving DecidableEq, Repr

/-- A row of the `bids` table (src/unnamed/part_004, lines 76-82); the
auction id is implicit because the ledger state below tracks one auction. -/
structure Bid where
  bidder_id : UserId
  amount : Money
  created_at : Time
deriving DecidableEq, Repr

/-- A row of the `notifications` table (src/unnamed/part_004, lines
90-98); the nullable auction id is elided for the same reason. -/
structure Notification where
  user_id : UserId
  type : NotificationType
  message : String
deriving DecidableEq, Repr

/-- The per-auction slice of the database that bid submission touches:
the auction row addressed by `NEW.auction_id` (`none` when the id does
not resolve), its append-only bid log and the notifications table. -/
structure LedgerState where
  auction : Option Auction
  bids : List Bid
  notifications : List Notification
deriving DecidableEq, Repr

/-- First UPDATE of `update_auction_status` (src/unnamed/part_002, lines
22-26): draft auctions whose window has opened become active. -/
def activate_row (a : Auction) (now : Time) : Auction :=
  if a.status = AuctionStatus.draft ∧ a.start_time ≤ now ∧ now < a.end_time then
    { a with status := AuctionStatus.active }
  else a

/-- Second UPDATE of `update_auction_status` (src/unnamed/part_002, lines
29-32): draft or active auctions past their end time become ended. -/
def end_row (a : Auction) (now : Time) : Auction :=
  if (a.status = AuctionStatus.draft ∨ a.status = AuctionStatus.active) ∧ a.end_time ≤ now then
    { a with status := AuctionStatus.ended }
  else a

/-- `update_auction_status()` (src/unnamed/part_002, lines 15-34): the two
sequential batch UPDATE statements over the auctions table. -/
def update_auction_status (auctions : List Auction) (now : Time) : List Auction :=
  let l1 := auctions.map (fun a => activate_row a now)
  l1.map (fun a => end_row a now)

/-- The effect of `update_auction_status` on a single row: the two UPDATE
statements act independently per row, so the batch is the map of this. -/
def update_auction_status_row (a : Auction) (now : Time) : Auction :=
  end_row (activate_row a now) now

/-- The rejection outcomes of `handle_new_bid` (src/unnamed/part_002);
each constructor corresponds to one RAISE EXCEPTION site, in source
order. `belowMinimum` carries the minimum the message interpolates. -/
inductive RejectReason where
  | notFound
  | notActive
  | auctionEnded
  | selfBid
  | belowMinimum (minimumBid : Money)
deriving DecidableEq, Repr

/-- Minimum-bid computation of `handle_new_bid` (src/unnamed/part_002,
lines 69-78). `COALESCE(highest_bid, 0)` is the identity here because
`highest_bid` is modelled non-nullable (schema DEFAULT 0). -/
def minimum_bid (auction_record : Auction) : Money :=
  if auction_record.highest_bid = 0 then auction_record.starting_price
  else auction_record.highest_bid + auction_record.bid_increment

/-- The validation prefix of `handle_new_bid` (src/unnamed/part_002,
lines 48-83): the existence, status, end-time, self-bid and minimum-bid
checks, in source order; `none` means the bid passes every check. -/
def validate (auction : Option Auction) (now : Time) (bidder_id : UserId) (amount : Money) :
    Option RejectReason :=
  match auction with
  | none => some RejectReason.notFound
  | some auction_record =>
    if auction_record.status ≠ AuctionStatus.active then some RejectReason.notActive
    else if auction_record.end_time ≤ now then some RejectReason.auctionEnded
    else if auction_record.seller_id = bidder_id then some RejectReason.selfBid
    else if amount < minimum_bid auction_record then
      some (RejectReason.belowMinimum (minimum_bid auction_record))
    else none

/-- The notifications inserted by an accepted bid (src/unnamed/part_002,
lines 92-111): one `new_bid` row for the seller, and one `outbid` row for
the previous highest bidder when one exists and differs from the new
bidder. `auction_record` is the row as read before the update, exactly as
in the trigger. -/
def bid_notifications (auction_record : Auction) (bidder_id : UserId) (amount : Money) :
    List Notification :=
  { user_id := auction_record.seller_id, type := NotificationType.new_bid,
    message := "New bid of $" ++ toString amount ++ " placed on your auction \"" ++
      auction_record.title ++ "\"" } ::
  (match auction_record.highest_bidder_id with
   | some prev =>
     if prev ≠ bidder_id then
       [{ user_id := prev, type := NotificationType.outbid,
          message := "You have been outbid on \"" ++ auction_record.title ++
            "\". New highest bid: $" ++ toString amount }]
     else []
   | none => [])

/-- `handle_new_bid()` (src/unnamed/part_002, lines 37-115) together with
the `bids` INSERT that fires it (the trigger is AFTER INSERT ON bids):
validation, then atomically the bid row append, the auction leader
update and the notification inserts. An error is a RAISE EXCEPTION. -/
def handle_new_bid (s : LedgerState) (now : Time) (bidder_id : UserId) (amount : Money) :
    Except RejectReason LedgerState :=
  match s.auction with
  | none => Except.error RejectReason.notFound
  | some auction_record =>
    match validate (some auction_record) now bidder_id amount with
    | some r => Except.error r
    | none =>
      Except.ok
        { auction := some { auction_record with
            highest_bid := amount, highest_bidder_id := some bidder_id },
          bids := s.bids ++ [{ bidder_id := bidder_id, amount := amount, created_at := now }],
          notifications := s.notifications ++ bid_notifications auction_record bidder_id amount }

/-- Transactional wrapper: a RAISE EXCEPTION in the trigger aborts the
whole INSERT transaction, so a rejection leaves the database unchanged
and only the reason surfaces to the client. -/
def submitBid (s : LedgerState) (now : Time) (bidder_id : UserId) (amount : Money) :
    LedgerState × Option RejectReason :=
  match handle_new_bid s now bidder_id amount with
  | Except.ok s' => (s', none)
  | Except.error r => (s, some r)

/-- Whether a bid submission is accepted. -/
def bidAccepted (s : LedgerState) (now : Time) (bidder_id : UserId) (amount : Money) : Bool :=
  match handle_new_bid s now bidder_id amount with
  | Except.ok _ => true
  | Except.error _ => false

/-- Phase flags of `App.filteredAuctions` (src/src/lib/supabase.ts App
component, line 208): `now < startTime`. -/
def app_isUpcoming (a : Auction) (now : Time) : Bool :=
  decide (now < a.start_time)

/-- Phase flags of `App.filteredAuctions` (line 209):
`now >= startTime && now < endTime && auction.status !== 'ended'`. -/
def app_isActive (a : Auction) (now : Time) : Bool :=
  decide (a.start_time ≤ now ∧ now < a.end_time ∧ a.status ≠ AuctionStatus.ended)

/-- Phase flags of `App.filteredAuctions` (line 210):
`now >= endTime || auction.status === 'ended'`. -/
def app_isEnded (a : Auction) (now : Time) : Bool :=
  decide (a.end_time ≤ now ∨ a.status = AuctionStatus.ended)

/-- Phase flag of `AuctionRoom` line 158 and `AuctionCard` line 20:
`isBefore(now, startTime)`. -/
def room_isUpcoming (a : Auction) (now : Time) : Bool :=
  decide (now < a.start_time)

/-- Phase flag of `AuctionRoom` line 159 and `AuctionCard` line 21:
`isAfter(now, startTime) && isBefore(now, endTime)` — both strict. -/
def room_isActive (a : Auction) (now : Time) : Bool :=
  decide (a.start_time < now ∧ now < a.end_time)

/-- Phase flag of `AuctionRoom` line 160 and `AuctionCard` line 22:
`isAfter(now, endTime) || auction.status === 'ended'`. -/
def room_isEnded (a : Auction) (now : Time) : Bool :=
  decide (a.end_time < now ∨ a.status = AuctionStatus.ended)

/-- The three lifecycle phases of spec section 4.1. -/
inductive Phase where
  | upcoming
  | active
  | ended
deriving DecidableEq, Repr

/-- Modelled from the spec: no `phaseOf` function exists in the source
(only the inline flags above); spec section 4.1 defines `Upcoming` iff
`now < startTime`, `Active` iff `startTime ≤ now < endTime` and the
status is not terminal, `Ended` iff `now ≥ endTime` or the status is
already `Ended`/`Cancelled`. -/
def specPhaseOf (a : Auction) (now : Time) : Phase :=
  if now < a.start_time then Phase.upcoming
  else if a.start_time ≤ now ∧ now < a.end_time ∧
      a.status ≠ AuctionStatus.ended ∧ a.status ≠ AuctionStatus.cancelled then Phase.active
  else Phase.ended

/-- Modelled from the spec: the ordered decision procedure of spec
section 4.2 as claim C1 states it, with the activity check phrased via
`specPhaseOf` (its `NotActive` covers not-yet-started and already-ended,
so it stands for both activity exceptions of the trigger). -/
def spec_validate (auction : Option Auction) (now : Time) (bidder_id : UserId) (amount : Money) :
    Option RejectReason :=
  match auction with
  | none => some RejectReason.notFound
  | some a =>
    if specPhaseOf a now ≠ Phase.active then some RejectReason.notActive
    else if bidder_id = a.seller_id then some RejectReason.selfBid
    else if amount < minimum_bid a then some (RejectReason.belowMinimum (minimum_bid a))
    else none

/-- The operations the collaborator layer invokes against one auction:
a `update_auction_status` RPC (src/src/lib/supabase.ts App.loadAuctions,
line 179) or a bid INSERT (src/src/components/AuctionRoom.tsx
handlePlaceBid, lines 129-133), each stamped with the wall-clock time at
which it runs. -/
inductive Event where
  | reconcile (now : Time)
  | bid (now : Time) (bidder_id : UserId) (amount : Money)
deriving DecidableEq, Repr

/-- The wall-clock time at which an event runs. -/
def eventTime : Event → Time
  | Event.reconcile now => now
  | Event.bid now _ _ => now

/-- Effect of one event on the per-auction state. -/
def applyEvent (s : LedgerState) (e : Event) : LedgerState :=
  match e with
  | Event.reconcile now =>
    { s with auction := s.auction.map (fun a => update_auction_status_row a now) }
  | Event.bid now bidder_id amount => (submitBid s now bidder_id amount).1

/-- Run a sequence of events. -/
def runEvents (s : LedgerState) (es : List Event) : LedgerState :=
  es.foldl applyEvent s

/-- Wall-clock time never runs backwards: each event in the list happens
no earlier than the bound `t` and than every event before it. -/
def chronoB (t : Time) : List Event → Bool
  | [] => true
  | e :: es => decide (t ≤ eventTime e) && chronoB (eventTime e) es

/-- The time of the last event of the list, or the bound when empty. -/
def lastTime (t : Time) : List Event → Time
  | [] => t
  | e :: es => lastTime (eventTime e) es

/-- The state of a freshly inserted auction row: the row itself, no bids,
no notifications. -/
def initState (a : Auction) : LedgerState :=
  { auction := some a, bids := [], notifications := [] }

/-- A cancelled auction inside its time window: seller 0, window
[0, 10), starting price 10, increment 5, no bids yet. -/
def cancelledInWindow : Auction :=
  { seller_id := 0, title := "Lamp", starting_price := 10, bid_increment := 5,
    start_time := 0, end_time := 10, status := AuctionStatus.cancelled,
    highest_bid := 0, highest_bidder_id := none }

/-- The same auction still in `draft` (created but never reconciled). -/
def draftInWindow : Auction :=
  { cancelledInWindow with status := AuctionStatus.draft }

/-- The same auction after reconciliation has made it `active`. -/
def activeInWindow : Auction :=
  { cancelledInWindow with status := AuctionStatus.active }

/-- C1 fails as stated: for a `draft` auction inside its window, the
spec's procedure (activity check = `phaseOf = Active`, which a draft
status does not falsify) accepts a qualifying bid, but the trigger
rejects it with `NotActive` because it compares the persisted status
against `'active'`, not `phaseOf`. Input: `draftInWindow`, `now = 5`,
bidder 1, amount 10. -/
theorem c1_validate_counterexample :
    validate (some draftInWindow) 5 1 10 = some RejectReason.notActive ∧
    spec_validate (some draftInWindow) 5 1 10 = none := by
  constructor <;> rfl

/-- C1 (amended): `validate` is the ordered decision procedure with the
activity check performed on the persisted status and the end time:
`NotFound` iff the auction is missing; `NotActive` iff the persisted
status is not `active`; `AuctionEnded` iff the status is `active` but
`endTime ≤ now`; `SelfBid` iff the activity checks pass and the bidder
is the seller; `BelowMinimum(minimum_bid)` iff all earlier checks pass
and the amount is below the minimum; acceptance iff every check passes.
The characterizations are mutually exclusive and encode first-failure
priority. -/
theorem c1_validate_characterization (auction : Option Auction) (now : Time)
    (b : UserId) (amt : Money) :
    (auction = none ↔ validate auction now b amt = some RejectReason.notFound)
  ∧ (∀ a, auction = some a →
      ((validate auction now b amt = some RejectReason.notActive ↔
          a.status ≠ AuctionStatus.active)
    ∧ (validate auction now b amt = some RejectReason.auctionEnded ↔
          a.status = AuctionStatus.active ∧ a.end_time ≤ now)
    ∧ (validate auction now b amt = some RejectReason.selfBid ↔
          a.status = AuctionStatus.active ∧ now < a.end_time ∧ a.seller_id = b)
    ∧ (validate auction now b amt = some (RejectReason.belowMinimum (minimum_bid a)) ↔
          a.status = AuctionStatus.active ∧ now < a.end_time ∧ a.seller_id ≠ b ∧
            amt < minimum_bid a)
    ∧ (validate auction now b amt = none ↔
          a.status = AuctionStatus.active ∧ now < a.end_time ∧ a.seller_id ≠ b ∧
            minimum_bid a ≤ amt))) := by
  constructor
  · cases auction <;> simp only [validate] <;> split_ifs <;> simp
  · rintro a rfl
    simp only [validate]
    split_ifs with h1 h2 h3 h4 <;>
      simp_all [not_lt, le_of_not_le, lt_of_not_le]

/-- C1 witness: the characterization applied to `activeInWindow` at
`now = 5`, bidder 1, amount 3, which is below the minimum of 10. -/
theorem c1_validate_characterization_witness :
    some activeInWindow = some activeInWindow ∧
    (validate (some activeInWindow) 5 1 3 =
        some (RejectReason.belowMinimum (minimum_bid activeInWindow)) ↔
      activeInWindow.status = AuctionStatus.active ∧ (5:Time) < activeInWindow.end_time ∧
        activeInWindow.seller_id ≠ 1 ∧ (3:Money) < minimum_bid activeInWindow) :=
  ⟨rfl, ((c1_validate_characterization (some activeInWindow) 5 1 3).2 activeInWindow
      rfl).2.2.2.1⟩

/-- C3 fails as stated: for a `cancelled` auction inside its window at
`now = 5`, both inline phase computations report Active (and not Ended),
while the claim's conditions (`status` not terminal for Active,
`Ended`/`Cancelled` terminal for Ended) say the opposite — the code only
tests `status === 'ended'` and never `cancelled`. -/
theorem c3_phase_counterexample :
    app_isActive cancelledInWindow 5 = true ∧
    room_isActive cancelledInWindow 5 = true ∧
    app_isEnded cancelledInWindow 5 = false ∧
    ¬ (cancelledInWindow.start_time ≤ 5 ∧ (5:Time) < cancelledInWindow.end_time ∧
        cancelledInWindow.status ≠ AuctionStatus.ended ∧
        cancelledInWindow.status ≠ AuctionStatus.cancelled) ∧
    specPhaseOf cancelledInWindow 5 = Phase.ended := by
  refine ⟨rfl, rfl, rfl, ?_, rfl⟩
  decide

/-- C3 (amended): in the dashboard filter, Upcoming iff `now < startTime`;
Active iff `startTime ≤ now < endTime` and the persisted status is not
`Ended`; Ended iff `now ≥ endTime` or the persisted status is `Ended` —
`Cancelled` is not treated as terminal. In `AuctionRoom`/`AuctionCard`
the comparisons are strict: Active iff `startTime < now < endTime` with
no status condition, Ended iff `now > endTime` or status is `Ended`.
The filter's Active and Ended flags are mutually exclusive. -/
theorem c3_phase_characterization (a : Auction) (now : Time) :
    (app_isUpcoming a now = true ↔ now < a.start_time)
  ∧ (app_isActive a now = true ↔
      a.start_time ≤ now ∧ now < a.end_time ∧ a.status ≠ AuctionStatus.ended)
  ∧ (app_isEnded a now = true ↔ a.end_time ≤ now ∨ a.status = AuctionStatus.ended)
  ∧ (room_isUpcoming a now = true ↔ now < a.start_time)
  ∧ (room_isActive a now = true ↔ a.start_time < now ∧ now < a.end_time)
  ∧ (room_isEnded a now = true ↔ a.end_time < now ∨ a.status = AuctionStatus.ended)
  ∧ (app_isActive a now = true → app_isEnded a now = false) := by
  refine ⟨?_, ?_, ?_, ?_, ?_, ?_, ?_⟩ <;>
    simp [app_isUpcoming, app_isActive, app_isEnded, room_isUpcoming, room_isActive,
      room_isEnded]

/-- C3 witness: the characterization applied to `activeInWindow` at
`now = 0` (the start boundary): the filter flag is Active there, the
room flag is not. -/
theorem c3_phase_characterization_witness :
    (app_isActive activeInWindow 0 = true ↔
      activeInWindow.start_time ≤ 0 ∧ (0:Time) < activeInWindow.end_time ∧
        activeInWindow.status ≠ AuctionStatus.ended) ∧
    (room_isActive activeInWindow 0 = true ↔
      activeInWindow.start_time < 0 ∧ (0:Time) < activeInWindow.end_time) ∧
    (app_isActive activeInWindow 0 = true ∧ app_isEnded activeInWindow 0 = false) :=
  ⟨(c3_phase_characterization activeInWindow 0).2.1,
   (c3_phase_characterization activeInWindow 0).2.2.2.2.1,
   by decide,
   (c3_phase_characterization activeInWindow 0).2.2.2.2.2.2 (by decide)⟩

/-- C4: a rejected bid submission leaves the database untouched — the
RAISE EXCEPTION aborts the INSERT transaction, so no bid row is
appended, the auction's leader fields keep their values, and no
notification is created. -/
theorem c4_rejected_bid_state_unchanged (s : LedgerState) (now : Time) (b : UserId)
    (amt : Money) (r : RejectReason) (h : (submitBid s now b amt).2 = some r) :
    (submitBid s now b amt).1.bids = s.bids ∧
    (submitBid s now b amt).1.auction = s.auction ∧
    (submitBid s now b amt).1.notifications = s.notifications := by
  unfold submitBid at h ⊢
  cases hh : handle_new_bid s now b amt <;> simp [hh] at h ⊢

/-- C4 witness: a below-minimum bid of 3 against `activeInWindow`
(minimum 10) is rejected and changes nothing. -/
theorem c4_rejected_bid_state_unchanged_witness :
    (submitBid (initState activeInWindow) 5 1 3).2 =
        some (RejectReason.belowMinimum 10) ∧
    (submitBid (initState activeInWindow) 5 1 3).1.bids = (initState activeInWindow).bids ∧
    (submitBid (initState activeInWindow) 5 1 3).1.auction =
        (initState activeInWindow).auction ∧
    (submitBid (initState activeInWindow) 5 1 3).1.notifications =
        (initState activeInWindow).notifications :=
  ⟨by decide, c4_rejected_bid_state_unchanged (initState activeInWindow) 5 1 3
      (RejectReason.belowMinimum 10) (by decide)⟩

/-- The batch reconciliation acts row by row. -/
theorem update_auction_status_eq_map (l : List Auction) (now : Time) :
    update_auction_status l now = l.map (fun a => update_auction_status_row a now) := by
  simp [update_auction_status, update_auction_status_row]

/-- C7: `update_auction_status` maps every `draft` auction whose window
contains `now` to `active`, every `draft` or `active` auction whose end
time has passed to `ended`, leaves every other row's status alone, and
never changes any field other than `status`; on a collection it is the
row-wise map of this rule. -/
theorem c7_update_auction_status_spec :
    (∀ (l : List Auction) (now : Time),
      update_auction_status l now = l.map (fun a => update_auction_status_row a now))
  ∧ (∀ (a : Auction) (now : Time), a.status = AuctionStatus.draft →
      a.start_time ≤ now → now < a.end_time →
      (update_auction_status_row a now).status = AuctionStatus.active)
  ∧ (∀ (a : Auction) (now : Time),
      (a.status = AuctionStatus.draft ∨ a.status = AuctionStatus.active) →
      a.end_time ≤ now →
      (update_auction_status_row a now).status = AuctionStatus.ended)
  ∧ (∀ (a : Auction) (now : Time),
      ¬ (a.status = AuctionStatus.draft ∧ a.start_time ≤ now ∧ now < a.end_time) →
      ¬ ((a.status = AuctionStatus.draft ∨ a.status = AuctionStatus.active) ∧
          a.end_time ≤ now) →
      update_auction_status_row a now = a)
  ∧ (∀ (a : Auction) (now : Time),
      update_auction_status_row a now =
        { a with status := (update_auction_status_row a now).status }) := by
  refine ⟨update_auction_status_eq_map, ?_, ?_, ?_, ?_⟩
  · intro a now h1 h2 h3
    unfold update_auction_status_row activate_row end_row
    split_ifs with hA hB
    · exact absurd hB.2 (not_le.mpr h3)
    · rfl
    · exact absurd ⟨h1, h2, h3⟩ hA
    · exact absurd ⟨h1, h2, h3⟩ hA
  · intro a now h1 h2
    unfold update_auction_status_row activate_row end_row
    split_ifs with hA hB hC
    · rfl
    · exact absurd ⟨Or.inr rfl, h2⟩ hB
    · rfl
    · exact absurd ⟨h1, h2⟩ hC
  · intro a now h1 h2
    unfold update_auction_status_row activate_row end_row
    rw [if_neg h1, if_neg h2]
  · intro a now
    unfold update_auction_status_row activate_row end_row
    split_ifs <;> rfl

/-- C7 witness: a draft auction inside its window at `now = 5` becomes
active. -/
theorem c7_update_auction_status_spec_witness :
    draftInWindow.status = AuctionStatus.draft ∧
    draftInWindow.start_time ≤ 5 ∧ (5:Time) < draftInWindow.end_time ∧
    (update_auction_status_row draftInWindow 5).status = AuctionStatus.active :=
  ⟨rfl, by decide, by decide,
    c7_update_auction_status_spec.2.1 draftInWindow 5 rfl (by decide) (by decide)⟩

/-- Reconciling a single row twice at the same time changes nothing more. -/
theorem update_auction_status_row_idem (a : Auction) (now : Time) :
    update_auction_status_row (update_auction_status_row a now) now =
      update_auction_status_row a now := by
  simp only [update_auction_status_row, activate_row, end_row]
  split_ifs <;> simp_all

/-- C8: `update_auction_status` is idempotent — running the batch twice
at the same time yields exactly the state of running it once. -/
theorem c8_update_auction_status_idempotent (l : List Auction) (now : Time) :
    update_auction_status (update_auction_status l now) now =
      update_auction_status l now := by
  rw [update_auction_status_eq_map, update_auction_status_eq_map, List.map_map]
  exact List.map_congr_left (fun a _ => update_auction_status_row_idem a now)

/-- Reconciling one row never touches any field other than `status`. -/
theorem update_auction_status_row_only_status (a : Auction) (now : Time) :
    update_auction_status_row a now =
      { a with status := (update_auction_status_row a now).status } := by
  unfold update_auction_status_row activate_row end_row
  split_ifs <;> rfl

/-- Eliminate an accepted bid: acceptance forces an existing `active`
auction whose end time has not passed, a bidder other than the seller,
an amount meeting the minimum, and pins down the successor state. -/
theorem handle_new_bid_ok_elim (s : LedgerState) (now : Time) (b : UserId) (amt : Money)
    (s' : LedgerState) (h : handle_new_bid s now b amt = Except.ok s') :
    ∃ a, s.auction = some a ∧ a.status = AuctionStatus.active ∧ now < a.end_time ∧
      a.seller_id ≠ b ∧ minimum_bid a ≤ amt ∧
      s' = { auction := some { a with highest_bid := amt, highest_bidder_id := some b },
             bids := s.bids ++ [{ bidder_id := b, amount := amt, created_at := now }],
             notifications := s.notifications ++ bid_notifications a b amt } := by
  cases ha : s.auction with
  | none => simp [handle_new_bid, ha] at h
  | some a =>
    refine ⟨a, rfl, ?_⟩
    simp only [handle_new_bid, ha, validate] at h
    split_ifs at h with h1 h2 h3 h4 <;> simp_all [not_lt]

/-- Acceptance of a bid implies an `ok` result of the trigger. -/
theorem bidAccepted_elim (s : LedgerState) (now : Time) (b : UserId) (amt : Money)
    (h : bidAccepted s now b amt = true) :
    ∃ s', handle_new_bid s now b amt = Except.ok s' := by
  unfold bidAccepted at h
  cases hh : handle_new_bid s now b amt <;> simp [hh] at h ⊢

/-- C2: every accepted bid creates exactly one `new_bid` notification for
the seller; exactly one `outbid` notification, targeted at the previous
leader, iff a previous leader exists and differs from the new bidder;
and zero notifications for the new bidder. The created rows are exactly
`bid_notifications` appended to the table. -/
theorem c2_accepted_bid_notifications (s : LedgerState) (now : Time) (b : UserId)
    (amt : Money) (a : Auction) (ha : s.auction = some a)
    (hacc : bidAccepted s now b amt = true) :
    (∀ s', handle_new_bid s now b amt = Except.ok s' →
        s'.notifications = s.notifications ++ bid_notifications a b amt)
  ∧ (bid_notifications a b amt).countP
      (fun n => decide (n.user_id = a.seller_id ∧ n.type = NotificationType.new_bid)) = 1
  ∧ (bid_notifications a b amt).countP
      (fun n => decide (n.type = NotificationType.outbid)) =
      (match a.highest_bidder_id with
       | some prev => if prev ≠ b then 1 else 0
       | none => 0)
  ∧ (∀ n ∈ bid_notifications a b amt, n.type = NotificationType.outbid →
        a.highest_bidder_id = some n.user_id)
  ∧ (bid_notifications a b amt).countP (fun n => decide (n.user_id = b)) = 0 := by
  obtain ⟨s', hok⟩ := bidAccepted_elim s now b amt hacc
  obtain ⟨a', ha', hst, hend, hsb, hmin, hs'⟩ := handle_new_bid_ok_elim s now b amt s' hok
  rw [ha] at ha'
  cases ha'
  refine ⟨?_, ?_, ?_, ?_, ?_⟩
  · intro s'' hok'
    rw [hok] at hok'
    cases hok'
    rw [hs']
  · cases hprev : a.highest_bidder_id <;>
      simp [bid_notifications, hprev, List.countP_cons] <;>
      split_ifs <;> simp
  · cases hprev : a.highest_bidder_id with
    | none => simp [bid_notifications, hprev]
    | some prev =>
      by_cases hpb : prev = b <;> simp [bid_notifications, hprev, hpb]
  · intro n hn hout
    cases hprev : a.highest_bidder_id with
    | none =>
      simp [bid_notifications, hprev] at hn
      rw [hn] at hout
      simp at hout
    | some prev =>
      rw [bid_notifications, hprev] at hn
      by_cases hpb : prev = b <;> simp [hpb] at hn
      · rw [hn] at hout
        simp at hout
      · rcases hn with hn | hn <;> rw [hn] at hout ⊢ <;> simp_all
  · cases hprev : a.highest_bidder_id with
    | none => simp [bid_notifications, hprev, hsb]
    | some prev =>
      by_cases hpb : prev = b <;> simp [bid_notifications, hprev, hpb, hsb]

/-- An auction with a previous leader, user 7, about to be outbid. -/
def ledWindow : Auction :=
  { activeInWindow with highest_bid := 10, highest_bidder_id := some 7 }

/-- C2 witness: bidder 1 outbids previous leader 7 with 15 on
`ledWindow` at `now = 5`: one `new_bid` row for seller 0, one `outbid`
row for 7, nothing for bidder 1. -/
theorem c2_accepted_bid_notifications_witness :
    (initState ledWindow).auction = some ledWindow ∧
    bidAccepted (initState ledWindow) 5 1 15 = true ∧
    (bid_notifications ledWindow 1 15).countP
      (fun n => decide (n.user_id = ledWindow.seller_id ∧
        n.type = NotificationType.new_bid)) = 1 ∧
    (bid_notifications ledWindow 1 15).countP
      (fun n => decide (n.user_id = 1)) = 0 :=
  ⟨rfl, by rfl,
   (c2_accepted_bid_notifications (initState ledWindow) 5 1 15 ledWindow rfl
      (by rfl)).2.1,
   (c2_accepted_bid_notifications (initState ledWindow) 5 1 15 ledWindow rfl
      (by rfl)).2.2.2.2⟩

/-- Reconciling a terminal row is a no-op. -/
theorem update_auction_status_row_terminal (a : Auction) (now : Time)
    (h : a.status = AuctionStatus.ended ∨ a.status = AuctionStatus.cancelled) :
    update_auction_status_row a now = a := by
  unfold update_auction_status_row activate_row end_row
  rw [if_neg (fun hc => by rcases h with h | h <;> simp [h] at hc)]
  rw [if_neg (fun hc => by rcases h with h | h <;> simp [h] at hc)]

/-- A bid event either leaves the state unchanged or commits an accepted
bid, whose preconditions and effect on the auction row it exposes. -/
theorem bid_step_cases (s : LedgerState) (now : Time) (b : UserId) (amt : Money) :
    (submitBid s now b amt).1 = s ∨
    ∃ a, s.auction = some a ∧ a.status = AuctionStatus.active ∧ now < a.end_time ∧
      a.seller_id ≠ b ∧ minimum_bid a ≤ amt ∧
      (submitBid s now b amt).1.auction =
        some { a with highest_bid := amt, highest_bidder_id := some b } := by
  unfold submitBid
  cases hh : handle_new_bid s now b amt with
  | error r => exact Or.inl rfl
  | ok s' =>
    obtain ⟨a, ha, hst, hend, hsb, hmin, hs'⟩ := handle_new_bid_ok_elim s now b amt s' hh
    exact Or.inr ⟨a, ha, hst, hend, hsb, hmin, by rw [hs']⟩

/-- Terminal statuses survive any single event. -/
theorem terminal_step (s : LedgerState) (e : Event)
    (h : ∀ a, s.auction = some a →
      a.status = AuctionStatus.ended ∨ a.status = AuctionStatus.cancelled) :
    ∀ a, (applyEvent s e).auction = some a →
      a.status = AuctionStatus.ended ∨ a.status = AuctionStatus.cancelled := by
  intro a ha
  cases e with
  | reconcile now =>
    simp only [applyEvent, Option.map_eq_some'] at ha
    obtain ⟨a0, ha0, hrow⟩ := ha
    rw [update_auction_status_row_terminal a0 now (h a0 ha0)] at hrow
    rw [← hrow]
    exact h a0 ha0
  | bid now b amt =>
    simp only [applyEvent] at ha
    rcases bid_step_cases s now b amt with hsame | ⟨a0, ha0, hst, -, -, -, hnew⟩
    · rw [hsame] at ha
      exact h a ha
    · rcases h a0 ha0 with h0 | h0 <;> rw [h0] at hst <;> exact absurd hst (by simp)

/-- Terminal statuses survive any event sequence. -/
theorem terminal_run (es : List Event) : ∀ (s : LedgerState),
    (∀ a, s.auction = some a →
      a.status = AuctionStatus.ended ∨ a.status = AuctionStatus.cancelled) →
    ∀ a, (runEvents s es).auction = some a →
      a.status = AuctionStatus.ended ∨ a.status = AuctionStatus.cancelled := by
  induction es with
  | nil => intro s h a ha; exact h a ha
  | cons e es ih => intro s h; exact ih (applyEvent s e) (terminal_step s e h)

/-- C9: status transitions are monotonic — once an auction is `ended` or
`cancelled`, no sequence of reconciliations and bid submissions ever
returns it to `draft` or `active`. -/
theorem c9_status_monotonic (s : LedgerState) (es : List Event)
    (h : ∀ a, s.auction = some a →
      a.status = AuctionStatus.ended ∨ a.status = AuctionStatus.cancelled) :
    ∀ a, (runEvents s es).auction = some a →
      a.status ≠ AuctionStatus.draft ∧ a.status ≠ AuctionStatus.active := by
  intro a ha
  rcases terminal_run es s h a ha with h1 | h1 <;> rw [h1] <;>
    exact ⟨by simp, by simp⟩

/-- The `cancelledInWindow` auction, after a reconcile at time 3 and a
bid attempt at time 4, is still `cancelled`. -/
theorem c9_status_monotonic_witness :
    (∀ a, (initState cancelledInWindow).auction = some a →
      a.status = AuctionStatus.ended ∨ a.status = AuctionStatus.cancelled) ∧
    ∀ a, (runEvents (initState cancelledInWindow)
        [Event.reconcile 3, Event.bid 4 1 50]).auction = some a →
      a.status ≠ AuctionStatus.draft ∧ a.status ≠ AuctionStatus.active :=
  ⟨fun a ha => by cases ha; exact Or.inr rfl,
   c9_status_monotonic (initState cancelledInWindow) [Event.reconcile 3, Event.bid 4 1 50]
     (fun a ha => by cases ha; exact Or.inr rfl)⟩

/-- A single event cannot make the seller the leader. -/
theorem leader_step (s : LedgerState) (e : Event)
    (h : ∀ a u, s.auction = some a → a.highest_bidder_id = some u → u ≠ a.seller_id) :
    ∀ a u, (applyEvent s e).auction = some a → a.highest_bidder_id = some u →
      u ≠ a.seller_id := by
  intro a u ha hu
  cases e with
  | reconcile now =>
    simp only [applyEvent, Option.map_eq_some'] at ha
    obtain ⟨a0, ha0, hrow⟩ := ha
    rw [update_auction_status_row_only_status a0 now] at hrow
    rw [← hrow] at hu ⊢
    exact h a0 u ha0 hu
  | bid now b amt =>
    simp only [applyEvent] at ha
    rcases bid_step_cases s now b amt with hsame | ⟨a0, ha0, -, -, hsb, -, hnew⟩
    · rw [hsame] at ha
      exact h a u ha hu
    · rw [hnew] at ha
      injection ha with h2
      rw [← h2] at hu ⊢
      have hub : u = b := by
        have : some b = some u := hu
        injection this with h3
        exact h3.symm
      rw [hub]
      exact Ne.symm hsb

/-- The seller-is-never-the-leader invariant survives any event sequence. -/
theorem leader_run (es : List Event) : ∀ (s : LedgerState),
    (∀ a u, s.auction = some a → a.highest_bidder_id = some u → u ≠ a.seller_id) →
    ∀ a u, (runEvents s es).auction = some a → a.highest_bidder_id = some u →
      u ≠ a.seller_id := by
  induction es with
  | nil => intro s h; exact h
  | cons e es ih => intro s h; exact ih (applyEvent s e) (leader_step s e h)

/-- C6: a bid by the auction's own seller is never accepted, and
consequently, starting from any state whose leader is not the seller
(in particular a fresh auction, whose leader is NULL), no sequence of
reconciliations and bids ever makes `highest_bidder_id` equal to
`seller_id`. -/
theorem c6_seller_never_leader :
    (∀ (s : LedgerState) (now : Time) (amt : Money) (a : Auction),
      s.auction = some a → bidAccepted s now a.seller_id amt = false)
  ∧ ∀ (s : LedgerState) (es : List Event),
      (∀ a u, s.auction = some a → a.highest_bidder_id = some u → u ≠ a.seller_id) →
      ∀ a u, (runEvents s es).auction = some a → a.highest_bidder_id = some u →
        u ≠ a.seller_id := by
  constructor
  · intro s now amt a ha
    cases hb : bidAccepted s now a.seller_id amt with
    | false => rfl
    | true =>
      exfalso
      obtain ⟨s', hok⟩ := bidAccepted_elim s now a.seller_id amt hb
      obtain ⟨a1, ha1, -, -, hsb, -, -⟩ := handle_new_bid_ok_elim s now a.seller_id amt s' hok
      rw [ha] at ha1
      injection ha1 with h2
      rw [h2] at hsb
      exact hsb rfl
  · exact fun s es => leader_run es s

/-- C6 witness: the seller of `activeInWindow` (user 0) cannot win a bid
of 50 at time 5, and after that attempted self-bid the leader still
differs from the seller. -/
theorem c6_seller_never_leader_witness :
    (initState activeInWindow).auction = some activeInWindow ∧
    bidAccepted (initState activeInWindow) 5 activeInWindow.seller_id 50 = false ∧
    ∀ a u, (runEvents (initState activeInWindow) [Event.bid 5 0 50]).auction = some a →
      a.highest_bidder_id = some u → u ≠ a.seller_id :=
  ⟨rfl,
   c6_seller_never_leader.1 (initState activeInWindow) 5 50 activeInWindow rfl,
   c6_seller_never_leader.2 (initState activeInWindow) [Event.bid 5 0 50]
     (fun a u ha hu => by cases ha; cases hu)⟩

/-- The committed highest bid of the tracked auction; 0 when the auction
id does not resolve (matching the column default). -/
def hbOf (s : LedgerState) : Money :=
  match s.auction with
  | some a => a.highest_bid
  | none => 0

/-- The schema's CHECK constraints on auction terms:
`starting_price > 0` and `bid_increment > 0` (src/unnamed/part_004,
lines 65-66). -/
def posTerms (s : LedgerState) : Prop :=
  ∀ a, s.auction = some a → 0 < a.starting_price ∧ 0 < a.bid_increment

/-- Auction terms stay positive across any single event. -/
theorem posTerms_step (s : LedgerState) (e : Event) (h : posTerms s) :
    posTerms (applyEvent s e) := by
  intro a ha
  cases e with
  | reconcile now =>
    simp only [applyEvent, Option.map_eq_some'] at ha
    obtain ⟨a0, ha0, hrow⟩ := ha
    rw [update_auction_status_row_only_status a0 now] at hrow
    rw [← hrow]
    exact h a0 ha0
  | bid now b amt =>
    simp only [applyEvent] at ha
    rcases bid_step_cases s now b amt with hsame | ⟨a0, ha0, -, -, -, -, hnew⟩
    · rw [hsame] at ha
      exact h a ha
    · rw [hnew] at ha
      injection ha with h2
      rw [← h2]
      exact h a0 ha0

/-- One event never lowers the committed highest bid. -/
theorem hb_step (s : LedgerState) (e : Event) (h : posTerms s) :
    hbOf s ≤ hbOf (applyEvent s e) := by
  cases e with
  | reconcile now =>
    unfold hbOf
    cases ha : s.auction with
    | none => simp [applyEvent, ha]
    | some a =>
      simp only [applyEvent, ha, Option.map_some']
      rw [update_auction_status_row_only_status a now]
  | bid now b amt =>
    rcases bid_step_cases s now b amt with hsame | ⟨a0, ha0, -, -, -, hmin, hnew⟩
    · simp only [applyEvent, hsame]
      exact le_refl _
    · obtain ⟨hsp, hinc⟩ := h a0 ha0
      have hhb : hbOf s = a0.highest_bid := by unfold hbOf; rw [ha0]
      have hhb' : hbOf (applyEvent s (Event.bid now b amt)) = amt := by
        show hbOf (submitBid s now b amt).1 = amt
        unfold hbOf
        rw [hnew]
      rw [hhb, hhb']
      unfold minimum_bid at hmin
      split_ifs at hmin with h0
      · linarith
      · linarith

/-- The committed highest bid never decreases over any event sequence. -/
theorem hb_run (es : List Event) : ∀ (s : LedgerState), posTerms s →
    hbOf s ≤ hbOf (runEvents s es) := by
  induction es with
  | nil => intro s _; exact le_refl _
  | cons e es ih =>
    intro s h
    exact le_trans (hb_step s e h) (ih (applyEvent s e) (posTerms_step s e h))

/-- C10: under the schema's positivity constraints on the terms, an
accepted bid never lowers `highest_bid` (the committed amount meets the
minimum, which exceeds the old value), and over any event sequence
`highest_bid` is non-decreasing. -/
theorem c10_highest_bid_nondecreasing :
    (∀ (s : LedgerState) (now : Time) (b : UserId) (amt : Money) (s' : LedgerState),
      posTerms s → handle_new_bid s now b amt = Except.ok s' → hbOf s ≤ hbOf s')
  ∧ ∀ (s : LedgerState) (es : List Event), posTerms s →
      hbOf s ≤ hbOf (runEvents s es) := by
  constructor
  · intro s now b amt s' h hok
    obtain ⟨a0, ha0, -, -, -, hmin, hs'⟩ := handle_new_bid_ok_elim s now b amt s' hok
    obtain ⟨hsp, hinc⟩ := h a0 ha0
    have hhb : hbOf s = a0.highest_bid := by unfold hbOf; rw [ha0]
    have hhb' : hbOf s' = amt := by rw [hs']; rfl
    rw [hhb, hhb']
    unfold minimum_bid at hmin
    split_ifs at hmin with h0
    · linarith
    · linarith
  · exact fun s es h => hb_run es s h

/-- C10 witness: bidder 1 raises `activeInWindow` (highest bid 0) to 10;
the committed highest bid does not decrease. -/
theorem c10_highest_bid_nondecreasing_witness :
    posTerms (initState activeInWindow) ∧
    hbOf (initState activeInWindow) ≤
      hbOf (runEvents (initState activeInWindow) [Event.bid 5 1 10]) :=
  ⟨fun a ha => by cases ha; exact ⟨by decide, by decide⟩,
   c10_highest_bid_nondecreasing.2 (initState activeInWindow) [Event.bid 5 1 10]
     (fun a ha => by cases ha; exact ⟨by decide, by decide⟩)⟩

/-- Splitting a chronological list at its last event. -/
theorem chronoB_append (e : Event) : ∀ (es : List Event) (t : Time),
    chronoB t (es ++ [e]) = true →
    chronoB t es = true ∧ lastTime t es ≤ eventTime e := by
  intro es
  induction es with
  | nil =>
    intro t h
    simp only [List.nil_append, chronoB, Bool.and_eq_true, decide_eq_true_eq] at h
    exact ⟨rfl, h.1⟩
  | cons e' es ih =>
    intro t h
    simp only [List.cons_append, chronoB, Bool.and_eq_true] at h ⊢
    exact ⟨⟨h.1, (ih (eventTime e') h.2).1⟩, (ih (eventTime e') h.2).2⟩

/-- If a reconciled row is `active`, either the reconciliation itself
activated it (so its start time has passed) or it was already `active`
and untouched. -/
theorem update_auction_status_row_active (a : Auction) (now : Time) :
    (update_auction_status_row a now).status = AuctionStatus.active →
    ((update_auction_status_row a now).start_time ≤ now ∨
      (a.status = AuctionStatus.active ∧ update_auction_status_row a now = a)) := by
  unfold update_auction_status_row activate_row end_row
  split_ifs with hA hB hC
  · intro hfalse
    exact absurd hfalse (by simp)
  · intro _
    exact Or.inl hA.2.1
  · intro hfalse
    exact absurd hfalse (by simp)
  · intro hst
    exact Or.inr ⟨hst, rfl⟩

/-- Along any chronological event sequence, an `active` status implies
the start time lies at or before the time of the last event. -/
theorem active_start_step (s : LedgerState) (t : Time) (e : Event)
    (ht : t ≤ eventTime e)
    (h : ∀ a, s.auction = some a → a.status = AuctionStatus.active → a.start_time ≤ t) :
    ∀ a, (applyEvent s e).auction = some a → a.status = AuctionStatus.active →
      a.start_time ≤ eventTime e := by
  intro a ha hst
  cases e with
  | reconcile now =>
    simp only [applyEvent, Option.map_eq_some'] at ha
    obtain ⟨a0, ha0, hrow⟩ := ha
    rw [← hrow] at hst ⊢
    rcases update_auction_status_row_active a0 now hst with h1 | ⟨h1, h2⟩
    · exact h1
    · rw [h2]
      exact le_trans (h a0 ha0 (by rw [← h2]; exact hst)) ht
  | bid now b amt =>
    simp only [applyEvent] at ha
    rcases bid_step_cases s now b amt with hsame | ⟨a0, ha0, hst0, -, -, -, hnew⟩
    · rw [hsame] at ha
      exact le_trans (h a ha hst) ht
    · rw [hnew] at ha
      injection ha with h2
      rw [← h2]
      exact le_trans (h a0 ha0 hst0) ht

/-- Run form of `active_start_step`. -/
theorem active_start_run (es : List Event) : ∀ (s : LedgerState) (t : Time),
    chronoB t es = true →
    (∀ a, s.auction = some a → a.status = AuctionStatus.active → a.start_time ≤ t) →
    ∀ a, (runEvents s es).auction = some a → a.status = AuctionStatus.active →
      a.start_time ≤ lastTime t es := by
  induction es with
  | nil => intro s t _ h; exact h
  | cons e es ih =>
    intro s t hch h
    simp only [chronoB, Bool.and_eq_true, decide_eq_true_eq] at hch
    exact ih (applyEvent s e) (eventTime e) hch.2 (active_start_step s t e hch.1 h)

/-- C5: starting from a freshly created (`draft`) auction, along any
chronological sequence of reconciliations and bids, a bid accepted at
time `now` finds the auction in spec phase `Active` at `now`: the start
time has passed (activation only happens at a reconcile after it), the
end time has not (the trigger checks it), and the status is
non-terminal. -/
theorem c5_no_accept_outside_active_phase (a0 : Auction) (t0 : Time) (es : List Event)
    (now : Time) (b : UserId) (amt : Money)
    (hdraft : a0.status = AuctionStatus.draft)
    (hch : chronoB t0 (es ++ [Event.bid now b amt]) = true)
    (hacc : bidAccepted (runEvents (initState a0) es) now b amt = true) :
    ∀ a, (runEvents (initState a0) es).auction = some a →
      specPhaseOf a now = Phase.active := by
  obtain ⟨hches, hlast⟩ := chronoB_append (Event.bid now b amt) es t0 hch
  have hinv := active_start_run es (initState a0) t0 hches
    (fun a ha hst => by
      cases ha
      rw [hdraft] at hst
      exact absurd hst (by simp))
  intro a ha
  obtain ⟨s', hok⟩ := bidAccepted_elim (runEvents (initState a0) es) now b amt hacc
  obtain ⟨a1, ha1, hst, hend, -, -, -⟩ :=
    handle_new_bid_ok_elim (runEvents (initState a0) es) now b amt s' hok
  rw [ha] at ha1
  injection ha1 with h2
  rw [← h2] at hst hend
  have hstart : a.start_time ≤ now := le_trans (hinv a ha hst) hlast
  unfold specPhaseOf
  rw [if_neg (not_lt.mpr hstart)]
  rw [if_pos ⟨hstart, hend, by rw [hst]; simp, by rw [hst]; simp⟩]

/-- C5 witness: `draftInWindow` is reconciled at time 1 (becoming
active) and user 1 bids 10 at time 2; the bid is accepted and the spec
phase at time 2 is indeed `Active`. -/
theorem c5_no_accept_outside_active_phase_witness :
    draftInWindow.status = AuctionStatus.draft ∧
    chronoB 0 ([Event.reconcile 1] ++ [Event.bid 2 1 10]) = true ∧
    bidAccepted (runEvents (initState draftInWindow) [Event.reconcile 1]) 2 1 10 = true ∧
    specPhaseOf activeInWindow 2 = Phase.active :=
  ⟨rfl, by decide, by rfl,
   c5_no_accept_outside_active_phase draftInWindow 0 [Event.reconcile 1] 2 1 10 rfl
     (by decide) (by rfl) activeInWindow (by rfl)⟩
